import Mathlib

/-!
Verification development for the VoidSpaceBoat login-server admission layer.

The Rust sources are shallowly embedded below:
* `src/settings.rs` — layered typed configuration store (`SettingsValue`,
  `SettingsValue.fromStr`, `envPair` / `applyEnvVariables`, `populateOuter`,
  the layering pipeline of `Settings::new`);
* `src/socket.rs` — access-list loading (`accessIpmask`, `loadAccessList`),
  ordering parse (`AccessOrder.fromStr`);
* the typed lookup `try_get`, the access-list `evaluate`, and the connection
  rate limiter — repository code whose definitions are not present under the
  sources at hand (only callers / configuration knobs are) — are modelled
  from the specification, each marked in its doc comment.

Machine integers are modelled as `Nat` / `Int` with explicit range checks;
`f64` values are modelled exactly (`Rat` plus infinity / NaN markers): no
claim below inspects a rounded floating-point value, only which variant a
coercion produces.
-/

namespace VSB

/-! ### Character-list helpers (model of Rust `str::split` / `Itertools::join`) -/

/-- Value of a list of ASCII digit characters, most significant first. -/
def digitsToNat (cs : List Char) : Nat :=
  cs.foldl (fun a c => a * 10 + (c.toNat - 48)) 0

/-- Model of Rust `str.split(c)`: splits a character list at every occurrence
of `c`; always yields at least one (possibly empty) part. -/
def splitOnChar (c : Char) : List Char → List (List Char)
  | [] => [[]]
  | x :: xs =>
    let r := splitOnChar c xs
    if x = c then [] :: r
    else
      match r with
      | [] => [[x]]
      | y :: ys => (x :: y) :: ys

/-- Model of `Itertools::join` with a one-character separator. -/
def joinWithChar (c : Char) : List (List Char) → List Char
  | [] => []
  | [x] => x
  | x :: y :: ys => x ++ c :: joinWithChar c (y :: ys)

theorem splitOnChar_ne_nil (c : Char) (l : List Char) : splitOnChar c l ≠ [] := by
  cases l with
  | nil => simp [splitOnChar]
  | cons x xs =>
    simp only [splitOnChar]
    by_cases h : x = c
    · simp [h]
    · simp only [if_neg h]
      cases splitOnChar c xs with
      | nil => simp
      | cons y ys => simp

theorem joinWithChar_splitOnChar (c : Char) (l : List Char) :
    joinWithChar c (splitOnChar c l) = l := by
  induction l with
  | nil => rfl
  | cons x xs ih =>
    simp only [splitOnChar]
    by_cases h : x = c
    · subst h
      simp only [if_pos rfl]
      rcases hr : splitOnChar x xs with _ | ⟨y, ys⟩
      · exact absurd hr (splitOnChar_ne_nil x xs)
      · rw [hr] at ih
        simp [joinWithChar, ih]
    · simp only [if_neg h]
      rcases hr : splitOnChar c xs with _ | ⟨y, ys⟩
      · exact absurd hr (splitOnChar_ne_nil c xs)
      · rw [hr] at ih
        cases ys with
        | nil => simp_all [joinWithChar]
        | cons z zs => simp_all [joinWithChar]

theorem splitOnChar_append (c : Char) (xs ys : List Char) (h : c ∉ xs) :
    splitOnChar c (xs ++ c :: ys) = xs :: splitOnChar c ys := by
  induction xs with
  | nil => simp [splitOnChar]
  | cons x xs ih =>
    have hx : x ≠ c := fun he => h (he ▸ List.mem_cons_self x xs)
    have hxs : c ∉ xs := fun hm => h (List.mem_cons_of_mem x hm)
    simp only [List.cons_append, splitOnChar, if_neg hx]
    rw [List.append_eq, ih hxs]

/-- Every character of every part of a split occurs in the original list. -/
theorem mem_of_mem_splitOnChar (c : Char) :
    ∀ (l part : List Char), part ∈ splitOnChar c l → ∀ x ∈ part, x ∈ l := by
  intro l
  induction l with
  | nil =>
    intro part hp x hx
    simp [splitOnChar] at hp
    subst hp
    simp at hx
  | cons a as ih =>
    intro part hp x hx
    simp only [splitOnChar] at hp
    by_cases hac : a = c
    · rw [if_pos hac] at hp
      rcases List.mem_cons.mp hp with h1 | h1
      · subst h1; simp at hx
      · exact List.mem_cons_of_mem a (ih part h1 x hx)
    · rw [if_neg hac] at hp
      rcases hr : splitOnChar c as with _ | ⟨y, ys⟩
      · exact absurd hr (splitOnChar_ne_nil c as)
      · rw [hr] at hp
        rcases List.mem_cons.mp hp with h1 | h1
        · subst h1
          rcases List.mem_cons.mp hx with h2 | h2
          · exact h2 ▸ List.mem_cons_self a as
          · exact List.mem_cons_of_mem a
              (ih y (hr ▸ List.mem_cons_self y ys) x h2)
        · exact List.mem_cons_of_mem a
            (ih part (hr ▸ List.mem_cons_of_mem y h1) x hx)

/-- Every character of the original list lands in some part of the split
(provided it is not the separator itself). -/
theorem exists_part_of_mem (c : Char) :
    ∀ (l : List Char) (x : Char), x ∈ l → x ≠ c →
      ∃ part ∈ splitOnChar c l, x ∈ part := by
  intro l
  induction l with
  | nil => intro x hx; simp at hx
  | cons a as ih =>
    intro x hx hxc
    simp only [splitOnChar]
    by_cases hac : a = c
    · rw [if_pos hac]
      rcases List.mem_cons.mp hx with h1 | h1
      · exact absurd (h1.trans hac) hxc
      · obtain ⟨part, hp, hxp⟩ := ih x h1 hxc
        exact ⟨part, List.mem_cons_of_mem _ hp, hxp⟩
    · rw [if_neg hac]
      rcases hr : splitOnChar c as with _ | ⟨y, ys⟩
      · exact absurd hr (splitOnChar_ne_nil c as)
      · rcases List.mem_cons.mp hx with h1 | h1
        · exact ⟨a :: y, List.mem_cons_self _ _, h1 ▸ List.mem_cons_self a y⟩
        · obtain ⟨part, hp, hxp⟩ := ih x h1 hxc
          rw [hr] at hp
          rcases List.mem_cons.mp hp with h2 | h2
          · exact ⟨a :: y, List.mem_cons_self _ _,
              h2 ▸ List.mem_cons_of_mem a hxp⟩
          · exact ⟨part, List.mem_cons_of_mem _ h2, hxp⟩

/-! ### `SettingsValue` and value coercion (`src/settings.rs`) -/

/-- Exact model of an `f64` value produced by Rust's `f64::from_str`: a finite
decimal is kept as the exact rational it denotes (the rounding to the nearest
double is not modelled; no claim inspects the rounded numeric value), and the
literals `inf` / `-inf` / `nan` are distinguished markers. -/
inductive FloatVal where
  | finite (q : Rat)
  | inf
  | negInf
  | nan
  deriving DecidableEq

/-- `SettingsValue` from `src/settings.rs` (constructors `Bool` / `Int` /
`Float` / `String` / `BadString` / `Unknown` in the source, written in
lowercase here): possible values a setting can take in settings lua files.
`badString` carries non-UTF-8 byte sequences. -/
inductive SettingsValue where
  | bool (b : Bool)
  | int (n : Int)
  | float (f : FloatVal)
  | string (s : String)
  | badString (bytes : List Nat)
  | unknown
  deriving DecidableEq

/-- Strips one optional leading sign character; returns (is-negative, rest).
Models the sign handling of Rust's numeric `FromStr` implementations. -/
def stripSign : List Char → Bool × List Char
  | '+' :: t => (false, t)
  | '-' :: t => (true, t)
  | cs => (false, cs)

/-- Model of Rust `i64::from_str`: optional sign, then one or more ASCII
digits (leading zeros allowed), with the 64-bit signed range check; any
other input (including whitespace) fails. -/
def parseI64 (cs : List Char) : Option Int :=
  let p := stripSign cs
  if p.2 ≠ [] ∧ p.2.all Char.isDigit then
    let v : Int := if p.1 then -(digitsToNat p.2 : Int) else (digitsToNat p.2 : Int)
    if -(2 ^ 63) ≤ v ∧ v < 2 ^ 63 then some v else none
  else none

/-- The exact rational `(-1)^neg * digits * 10^e`. -/
def decValue (neg : Bool) (digits : List Char) (e : Int) : Rat :=
  let sign : Int := if neg then -1 else 1
  if 0 ≤ e then mkRat (sign * (digitsToNat digits : Int) * 10 ^ e.toNat) 1
  else mkRat (sign * (digitsToNat digits : Int)) (10 ^ (-e).toNat)

/-- Model of Rust `f64::from_str`: optional sign, then `inf` / `infinity` /
`nan` (ASCII case-insensitive) or a decimal significand
(`digits [. digits] | . digits`) with an optional non-empty exponent part.
Finite values are kept as exact rationals. -/
def parseF64 (cs : List Char) : Option FloatVal :=
  let p := stripSign cs
  let neg := p.1
  let body := p.2
  let lower := body.map Char.toLower
  if lower = "inf".data ∨ lower = "infinity".data then
    some (if neg then .negInf else .inf)
  else if lower = "nan".data then some .nan
  else
    let ip := body.span Char.isDigit
    let intPart := ip.1
    let fp :=
      match ip.2 with
      | '.' :: t => t.span Char.isDigit
      | _ => (([] : List Char), ip.2)
    let fracPart := fp.1
    if intPart = [] ∧ fracPart = [] then none
    else
      match fp.2 with
      | [] => some (.finite (decValue neg (intPart ++ fracPart) (-(fracPart.length : Int))))
      | e :: t =>
        if e = 'e' ∨ e = 'E' then
          let ep := stripSign t
          if ep.2 ≠ [] ∧ ep.2.all Char.isDigit then
            some (.finite (decValue neg (intPart ++ fracPart)
              ((if ep.1 then -(digitsToNat ep.2 : Int) else (digitsToNat ep.2 : Int))
                - (fracPart.length : Int))))
          else none
        else none

/-- Model of Rust `bool::from_str`: exactly `true` or `false`. -/
def parseBool (cs : List Char) : Option Bool :=
  if cs = "true".data then some true
  else if cs = "false".data then some false
  else none

/-- `SettingsValue::from_str` from `src/settings.rs`: try `i64`, then `f64`,
then `bool`; fall back to the string itself. -/
def SettingsValue.fromStr (s : String) : SettingsValue :=
  match parseI64 s.data with
  | some n => .int n
  | none =>
    match parseF64 s.data with
    | some f => .float f
    | none =>
      match parseBool s.data with
      | some b => .bool b
      | none => .string s

/-! ### Configuration store, layering and environment overlay
(`Settings::new` / `apply_env_variables` in `src/settings.rs`).

The Lua interpreter is an external collaborator: a settings script layer is
modelled by the sequence of writes it performs against the shared namespace
table, and the namespace table itself by a flat map from dotted key to value
(exactly the view `populate_hashmap` extracts). -/

/-- The flat settings map (`HashMap<String, SettingsValue>` in the source). -/
def SettingsMap : Type := String → Option SettingsValue

/-- The empty map. -/
def SettingsMap.empty : SettingsMap := fun _ => none

/-- Insert/overwrite one key. -/
def SettingsMap.insert (m : SettingsMap) (k : String) (v : SettingsValue) : SettingsMap :=
  fun k' => if k = k' then some v else m k'

/-- `Settings::get` from `src/settings.rs`: plain map lookup. -/
def SettingsMap.get (m : SettingsMap) (k : String) : Option SettingsValue := m k

/-- Apply a layer of writes, in order, against the shared table: later writes
to the same key overwrite earlier ones. -/
def applyWrites (m : SettingsMap) (ws : List (String × SettingsValue)) : SettingsMap :=
  ws.foldl (fun m kv => m.insert kv.1 kv.2) m

/-- The last value a layer writes to key `k`, if any. -/
def lastWrite (ws : List (String × SettingsValue)) (k : String) : Option SettingsValue :=
  ws.foldl (fun acc kv => if kv.1 = k then some kv.2 else acc) none

/-- `apply_env_variables` in `src/settings.rs`, per variable: split the name
on `_`; the first part must be `XI`; the second part, lower-cased, is the
namespace; the remaining parts re-joined with `_` are the inner name; the
value goes through `SettingsValue::from_str`. Returns the dotted key and
value written into the namespace table (the generated Lua assignment
`xi.settings.<outer>.<inner> = v` is modelled as a direct table write). -/
def envPair (name : String) (v : String) : Option (String × SettingsValue) :=
  match splitOnChar '_' name.data with
  | p0 :: p1 :: rest =>
    if p0 = "XI".data then
      some (String.mk (p1.map Char.toLower ++ '.' :: joinWithChar '_' rest),
            SettingsValue.fromStr v)
    else none
  | _ => none

/-- The writes performed by the environment overlay, in environment order. -/
def envWrites (env : List (String × String)) : List (String × SettingsValue) :=
  env.filterMap (fun p => envPair p.1 p.2)

/-- `Settings::new` from `src/settings.rs`: default-script layer, then
override-script layer, then the environment overlay, all applied in order
against the same table, which is then read out as the flat map. -/
def settingsNew (defaults overrides : List (String × SettingsValue))
    (env : List (String × String)) : SettingsMap :=
  applyWrites (applyWrites (applyWrites SettingsMap.empty defaults) overrides)
    (envWrites env)

/-! ### Typed lookup (spec §4.1 `get<T>`). -/

/-- The target types of the typed lookup. -/
inductive SettingsType where
  | bool
  | int
  | float
  | string
  deriving DecidableEq

/-- Configuration lookup errors, from the spec's error taxonomy (§7). -/
inductive ConfigError where
  | missingKey (key : String)
  | typeMismatch (key : String)
  deriving DecidableEq

/-- The variant a stored value belongs to (`badString` / `unknown` lie
outside the four lookup target types). -/
def variantOf : SettingsValue → Option SettingsType
  | .bool _ => some .bool
  | .int _ => some .int
  | .float _ => some .float
  | .string _ => some .string
  | .badString _ => none
  | .unknown => none

/-- Modelled from the spec: coercion of a stored value to a requested target
type — the exact variant, plus the single widening `int → float`; nothing
else coerces. Part of `try_get`, which is called throughout the sources
(`socket.rs`, `db.rs`, `main.rs`) but whose definition is not under the
sources at hand. -/
def coerce : SettingsType → SettingsValue → Option SettingsValue
  | .bool, .bool b => some (.bool b)
  | .int, .int n => some (.int n)
  | .float, .float f => some (.float f)
  | .float, .int n => some (.float (.finite (n : Rat)))
  | .string, .string s => some (.string s)
  | _, _ => none

/-- Modelled from the spec: `try_get` / `get<T>(key) -> Result<T>` — fails
with `MissingKey` if the key is absent, `TypeMismatch` if present but not
coercible to the target type, and returns the (possibly int→float widened)
value otherwise. The definition of `try_get` is repository code not under
the sources at hand; only its call sites are. -/
def tryGet (m : SettingsMap) (k : String) (ty : SettingsType) :
    Except ConfigError SettingsValue :=
  match m.get k with
  | none => .error (.missingKey k)
  | some v =>
    match coerce ty v with
    | none => .error (.typeMismatch k)
    | some w => .ok w

/-! ### Lua values and `populate_hashmap` (`src/settings.rs`) -/

/-- Errors of the embedded Lua layer (`mlua::Error`); only the conversion
error shape matters to `populate_hashmap`'s error mapping. -/
inductive MLuaError where
  | fromLuaConversionError (src dst : String)
  | other (msg : String)
  deriving DecidableEq

/-- The shapes of `mlua::Value`. Tables are modelled with string keys (the
only keys `populate_hashmap` iterates); `str` carries raw bytes. -/
inductive LuaValue where
  | nil
  | boolean (b : Bool)
  | lightUserData
  | integer (n : Int)
  | number (f : FloatVal)
  | str (bytes : List Nat)
  | table (entries : List (String × LuaValue))
  | function
  | thread
  | userData
  | luaError

/-- Is a byte a UTF-8 continuation byte (`10xxxxxx`)? -/
def contByte (b : Nat) : Bool := decide (0x80 ≤ b ∧ b ≤ 0xBF)

/-- Allowed second byte after a three-byte leader (RFC 3629 table). -/
def utf8Second3 (b c1 : Nat) : Bool :=
  if b = 0xE0 then decide (0xA0 ≤ c1 ∧ c1 ≤ 0xBF)
  else if b = 0xED then decide (0x80 ≤ c1 ∧ c1 ≤ 0x9F)
  else contByte c1

/-- Allowed second byte after a four-byte leader (RFC 3629 table). -/
def utf8Second4 (b c1 : Nat) : Bool :=
  if b = 0xF0 then decide (0x90 ≤ c1 ∧ c1 ≤ 0xBF)
  else if b = 0xF4 then decide (0x80 ≤ c1 ∧ c1 ≤ 0x8F)
  else contByte c1

/-- Model of Rust `String::from_utf8`: strict UTF-8 decoding (shortest form
only, surrogates excluded), yielding the decoded characters or failing. -/
def utf8Decode : List Nat → Option (List Char)
  | [] => some []
  | b :: rest =>
    if b ≤ 0x7F then
      (utf8Decode rest).map (fun cs => Char.ofNat b :: cs)
    else if 0xC2 ≤ b ∧ b ≤ 0xDF then
      match rest with
      | c1 :: r =>
        if contByte c1 then
          (utf8Decode r).map (fun cs =>
            Char.ofNat ((b - 0xC0) * 0x40 + (c1 - 0x80)) :: cs)
        else none
      | _ => none
    else if 0xE0 ≤ b ∧ b ≤ 0xEF then
      match rest with
      | c1 :: c2 :: r =>
        if utf8Second3 b c1 ∧ contByte c2 then
          (utf8Decode r).map (fun cs =>
            Char.ofNat ((b - 0xE0) * 0x1000 + (c1 - 0x80) * 0x40 + (c2 - 0x80)) :: cs)
        else none
      | _ => none
    else if 0xF0 ≤ b ∧ b ≤ 0xF4 then
      match rest with
      | c1 :: c2 :: c3 :: r =>
        if utf8Second4 b c1 ∧ contByte c2 ∧ contByte c3 then
          (utf8Decode r).map (fun cs =>
            Char.ofNat ((b - 0xF0) * 0x40000 + (c1 - 0x80) * 0x1000
              + (c2 - 0x80) * 0x40 + (c3 - 0x80)) :: cs)
        else none
      | _ => none
    else none

/-- `FromLua for SettingsValue` in `src/settings.rs`: booleans, integers and
numbers map to the corresponding variants; strings map to `string` when the
bytes are valid UTF-8 and to `badString` otherwise; every other Lua value
maps to `unknown` — and every branch returns `Ok`. -/
def fromLua : LuaValue → Except MLuaError SettingsValue
  | .boolean b => .ok (.bool b)
  | .integer n => .ok (.int n)
  | .number f => .ok (.float f)
  | .str bytes =>
    .ok (match utf8Decode bytes with
         | some cs => .string (String.mk cs)
         | none => .badString bytes)
  | _ => .ok .unknown

/-- Is a Lua value one of the four shapes `FromLua for SettingsValue`
handles specifically (boolean / integer / number / string)? -/
def isBasicShape : LuaValue → Bool
  | .boolean _ => true
  | .integer _ => true
  | .number _ => true
  | .str _ => true
  | _ => false

/-- `populate_hashmap`'s error type: `ServerError` restricted to the two
variants the function produces. -/
inductive PopulateError where
  | parseValueError (key : String)
  | luaErr (e : MLuaError)
  deriving DecidableEq

/-- Inner loop of `populate_hashmap`: converts each inner value via
`FromLua for SettingsValue`, mapping a conversion error to
`ParseValueError { key: "<outer>.?" }` and any other Lua error through, and
inserts `"<outer>.<inner>"` into the map. -/
def populateInner (outerKey : String) :
    List (String × LuaValue) → SettingsMap → Except PopulateError SettingsMap
  | [], m => .ok m
  | (ik, v) :: rest, m =>
    match fromLua v with
    | .ok sv => populateInner outerKey rest (m.insert (outerKey ++ "." ++ ik) sv)
    | .error (.fromLuaConversionError _ _) =>
      .error (.parseValueError (outerKey ++ "." ++ "?"))
    | .error e => .error (.luaErr e)

/-- Outer loop of `populate_hashmap`: iterates the two-level `xi.settings`
table; an outer value that is not a table fails the outer `pairs` conversion
with a Lua error. -/
def populateOuter :
    List (String × LuaValue) → SettingsMap → Except PopulateError SettingsMap
  | [], m => .ok m
  | (okey, v) :: rest, m =>
    match v with
    | .table inner =>
      match populateInner okey inner m with
      | .ok m' => populateOuter rest m'
      | .error e => .error e
    | _ => .error (.luaErr (.fromLuaConversionError "Value" "Table"))

/-! ### IPv4 networks and the access list (`src/socket.rs`) -/

/-- `Ipv4Network` of the `ipnetwork` crate: a 32-bit address (`ip < 2^32`,
kept as `Nat`) plus a mask length `plen ≤ 32` (both bounds are established
by the parser; the structure itself does not carry them). -/
structure Ipv4Network where
  ip : Nat
  plen : Nat
  deriving DecidableEq

/-- One dotted-decimal octet, as Rust's IPv4 address parser reads it: one to
three ASCII digits, no sign, no leading zero (except `0` itself), value at
most 255. -/
def parseOctet (cs : List Char) : Option Nat :=
  if cs ≠ [] ∧ cs.all Char.isDigit ∧ cs.length ≤ 3 ∧
      (cs.length = 1 ∨ cs.head? ≠ some '0') ∧ digitsToNat cs ≤ 255 then
    some (digitsToNat cs)
  else none

/-- Model of Rust `Ipv4Addr::from_str`: exactly four octets joined by dots. -/
def parseIpv4Addr (cs : List Char) : Option Nat :=
  match (splitOnChar '.' cs).map parseOctet with
  | [some a, some b, some c, some d] => some (((a * 256 + b) * 256 + c) * 256 + d)
  | _ => none

/-- Model of Rust `u8::from_str`: optional `+`, one or more digits, value at
most 255. -/
def parseU8 (cs : List Char) : Option Nat :=
  let ds := if cs.head? = some '+' then cs.tail else cs
  if ds ≠ [] ∧ ds.all Char.isDigit ∧ digitsToNat ds ≤ 255 then
    some (digitsToNat ds)
  else none

/-- The 32-bit netmask with `p` leading one bits. -/
def maskOfLen (p : Nat) : Nat := 2 ^ 32 - 2 ^ (32 - p)

/-- `ipnetwork`'s netmask-to-length conversion: succeeds exactly on
contiguous masks. -/
def maskBitsToLen (m : Nat) : Option Nat :=
  (List.range 33).find? (fun p => maskOfLen p == m)

/-- `ipnetwork`'s mask-length field parser: a `u8` length, or, failing that,
a dotted-decimal contiguous netmask; either way at most 32. -/
def parseMaskLen (cs : List Char) : Option Nat :=
  match parseU8 cs with
  | some n => if n ≤ 32 then some n else none
  | none =>
    match parseIpv4Addr cs with
    | some m =>
      match maskBitsToLen m with
      | some p => if p ≤ 32 then some p else none
      | none => none
    | none => none

/-- Model of `Ipv4Network::from_str` of the `ipnetwork` crate: an address,
optionally followed by `/` and a mask length or netmask; more than one `/`
fails. A bare address gets mask length 32. -/
def ipv4NetworkFromStr (cs : List Char) : Option Ipv4Network :=
  match splitOnChar '/' cs with
  | [a] => (parseIpv4Addr a).map (fun ip => ⟨ip, 32⟩)
  | [a, p] =>
    match parseIpv4Addr a, parseMaskLen p with
    | some ip, some len => some ⟨ip, len⟩
    | _, _ => none
  | _ => none

/-- `access_ipmask` from `src/socket.rs`: the literal `all` yields
`0.0.0.0/0` (`Ipv4Network::new(0.0.0.0, 0)` succeeds since `0 ≤ 32`); any
other token is parsed as a CIDR, and a parse failure yields `None` (the
source logs and returns `result.ok()`). -/
def accessIpmask (s : String) : Option Ipv4Network :=
  if s = "all" then some ⟨0, 0⟩
  else ipv4NetworkFromStr s.data

/-- `load_access_list` from `src/socket.rs`: split the configured string on
commas, keep the tokens that are not exactly the empty string (no
trimming), and keep the successful parses. -/
def loadAccessList (accessList : String) : List Ipv4Network :=
  (((splitOnChar ',' accessList.data).map String.mk).filter
    (fun x => x ≠ "")).filterMap accessIpmask

/-- `ipnetwork`'s `contains`: the address agrees with the network address on
the `plen` leading bits. -/
def containsAddr (net : Ipv4Network) (addr : Nat) : Bool :=
  addr / 2 ^ (32 - net.plen) == net.ip / 2 ^ (32 - net.plen)

/-- Does the address match any range of the set? -/
def matchesAny (ranges : List Ipv4Network) (addr : Nat) : Bool :=
  ranges.any (fun r => containsAddr r addr)

/-- `AccessOrder` from `src/socket.rs`. -/
inductive AccessOrder where
  | denyAllow
  | allowDeny
  | mutualFailure
  deriving DecidableEq

/-- `AccessOrder::from_str` from `src/socket.rs`: the three recognized
strings, with everything else defaulting to `DenyAllow`; total. -/
def AccessOrder.fromStr (ordering : String) : AccessOrder :=
  if ordering = "deny,allow" then .denyAllow
  else if ordering = "allow,deny" then .allowDeny
  else if ordering = "mutual-failure" then .mutualFailure
  else .denyAllow

/-- Modelled from the spec: `evaluate(policy, addr)` (§4.2) — the ordered
allow/deny decision. No evaluation function exists in the sources at hand
(`socket.rs` only stores the rule sets); the three ordering semantics follow
the spec's words. -/
def evaluate (order : AccessOrder) (allow deny : List Ipv4Network)
    (addr : Nat) : Bool :=
  match order with
  | .denyAllow =>
    if matchesAny deny addr then matchesAny allow addr else true
  | .allowDeny =>
    if matchesAny allow addr then !(matchesAny deny addr) else false
  | .mutualFailure => matchesAny allow addr && !(matchesAny deny addr)

/-! ### Connection rate limiter (spec §4.3) -/

/-- Rate-limiter knobs, as stored on `Socket` in `src/socket.rs`
(`connect_count`, `connect_interval`, `connect_lockout`; durations in
milliseconds, modelled as `Nat`). -/
structure RateConfig where
  connectCount : Nat
  connectInterval : Nat
  connectLockout : Nat
  deriving DecidableEq

/-- Per-IP rate state (spec §3 `RateState`): attempts inside the current
window, the window start, and an optional lockout expiry. -/
structure RateState where
  count : Nat
  windowStart : Nat
  lockoutExpiry : Option Nat
  deriving DecidableEq

/-- The rate-limit fragment of an admission decision. -/
inductive RateDecision where
  | pass
  | rateLimited (retryAfter : Nat)
  deriving DecidableEq

/-- Modelled from the spec: `record_attempt` (§4.3) — the fixed-window rate
check. The sources store the three knobs but wire no enforcement path to
them (the spec itself calls §4.3 a design reconstruction), so the steps
follow the spec's words: an active lockout rejects without counting; an
elapsed window resets; the incremented count is compared against
`connect_count`, and exceeding it sets `lockout_expiry = now +
connect_lockout`. -/
def recordAttempt (cfg : RateConfig) (st : RateState) (now : Nat) :
    RateDecision × RateState :=
  match st.lockoutExpiry with
  | some e =>
    if now < e then (.rateLimited (e - now), st)
    else stepWindow cfg st now
  | none => stepWindow cfg st now
where
  /-- Steps 2–4 of §4.3, reached when no lockout is active. -/
  stepWindow (cfg : RateConfig) (st : RateState) (now : Nat) :
      RateDecision × RateState :=
    let st1 := if now - st.windowStart > cfg.connectInterval then
        { st with windowStart := now, count := 0 }
      else st
    let st2 := { st1 with count := st1.count + 1 }
    if st2.count > cfg.connectCount then
      (.rateLimited cfg.connectLockout,
       { st2 with lockoutExpiry := some (now + cfg.connectLockout) })
    else (.pass, st2)

/-- The state created on the first-ever attempt from an IP (spec §3). -/
def freshState (t0 : Nat) : RateState := ⟨0, t0, none⟩

/-- Run a sequence of attempts, threading the per-IP state. -/
def runAttempts (cfg : RateConfig) (st : RateState) :
    List Nat → List RateDecision × RateState
  | [] => ([], st)
  | t :: ts =>
    let r := recordAttempt cfg st t
    let rest := runAttempts cfg r.2 ts
    (r.1 :: rest.1, rest.2)

/-! ### Lemmas: layered writes against the shared table -/

theorem applyWrites_get (k : String) :
    ∀ (ws : List (String × SettingsValue)) (m : SettingsMap),
      (applyWrites m ws).get k
        = ws.foldl (fun acc kv => if kv.1 = k then some kv.2 else acc) (m.get k) := by
  intro ws
  induction ws with
  | nil => intro m; rfl
  | cons kv ws ih =>
    intro m
    show (applyWrites (m.insert kv.1 kv.2) ws).get k = _
    rw [ih]
    rfl

theorem foldl_write_or (k : String) :
    ∀ (ws : List (String × SettingsValue)) (init : Option SettingsValue),
      ws.foldl (fun acc kv => if kv.1 = k then some kv.2 else acc) init
        = (lastWrite ws k).or init := by
  intro ws
  induction ws with
  | nil => intro init; rfl
  | cons kv ws ih =>
    intro init
    show ws.foldl _ (if kv.1 = k then some kv.2 else init) = _
    rw [ih]
    have h2 : lastWrite (kv :: ws) k
        = (lastWrite ws k).or (if kv.1 = k then some kv.2 else none) := by
      show ws.foldl _ (if kv.1 = k then some kv.2 else none) = _
      rw [ih]
    rw [h2]
    cases lastWrite ws k with
    | some v => rfl
    | none =>
      by_cases hk : kv.1 = k
      · simp [hk, Option.or]
      · simp [hk, Option.or]

theorem settingsNew_get (d o : List (String × SettingsValue))
    (e : List (String × String)) (k : String) :
    (settingsNew d o e).get k
      = (lastWrite (envWrites e) k).or ((lastWrite o k).or (lastWrite d k)) := by
  show (applyWrites (applyWrites (applyWrites SettingsMap.empty d) o)
    (envWrites e)).get k = _
  rw [applyWrites_get, foldl_write_or, applyWrites_get, foldl_write_or,
    applyWrites_get, foldl_write_or]
  have h : (lastWrite d k).or (SettingsMap.empty.get k) = lastWrite d k := by
    cases lastWrite d k <;> rfl
  rw [h]

/-! ### Claim theorems -/

/-- C1: for every key and target type, the typed lookup returns a
`missingKey` error when the key is absent, a `typeMismatch` error when the
stored value is not coercible to the target type, and the coerced value
otherwise; and the only cross-variant coercion is the `int → float`
widening. -/
theorem c1_typed_lookup (m : SettingsMap) (k : String) (ty : SettingsType) :
    (m.get k = none → tryGet m k ty = .error (.missingKey k))
    ∧ (∀ v, m.get k = some v → coerce ty v = none →
        tryGet m k ty = .error (.typeMismatch k))
    ∧ (∀ v w, m.get k = some v → coerce ty v = some w → tryGet m k ty = .ok w)
    ∧ (∀ v w, coerce ty v = some w →
        variantOf v = some ty ∨ (ty = .float ∧ variantOf v = some .int)) := by
  refine ⟨?_, ?_, ?_, ?_⟩
  · intro h; simp [tryGet, h]
  · intro v hv hc; simp [tryGet, hv, hc]
  · intro v w hv hc; simp [tryGet, hv, hc]
  · intro v w hc
    cases ty <;> cases v <;> simp_all [coerce, variantOf]

/-- Witness for C1 at a concrete store: a present `int` key read as `int`,
an absent key, and a present `int` key read as `bool`. -/
theorem c1_typed_lookup_witness :
    tryGet (SettingsMap.empty.insert "network.TCP_STALL_TIME"
        (.int 60)) "network.TCP_STALL_TIME" .int = .ok (.int 60)
    ∧ tryGet (SettingsMap.empty.insert "network.TCP_STALL_TIME"
        (.int 60)) "network.TCP_ORDER" .string = .error (.missingKey "network.TCP_ORDER")
    ∧ tryGet (SettingsMap.empty.insert "network.TCP_STALL_TIME"
        (.int 60)) "network.TCP_STALL_TIME" .bool
      = .error (.typeMismatch "network.TCP_STALL_TIME") := by
  refine ⟨?_, ?_, ?_⟩
  · exact (c1_typed_lookup _ "network.TCP_STALL_TIME" .int).2.2.1
      (.int 60) (.int 60) (by decide) (by decide)
  · exact (c1_typed_lookup _ "network.TCP_ORDER" .string).1 (by decide)
  · exact (c1_typed_lookup _ "network.TCP_STALL_TIME" .bool).2.1
      (.int 60) (by decide) (by decide)

/-- C2: configuration layering precedence — the final store holds the
environment overlay's value when the environment writes the key, otherwise
the override layer's last write, otherwise the default layer's last write,
because the three layers are applied in that order against the same table. -/
theorem c2_layer_precedence (d o : List (String × SettingsValue))
    (e : List (String × String)) (k : String) :
    (∀ ve, lastWrite (envWrites e) k = some ve → (settingsNew d o e).get k = some ve)
    ∧ (lastWrite (envWrites e) k = none →
        ∀ vo, lastWrite o k = some vo → (settingsNew d o e).get k = some vo)
    ∧ (lastWrite (envWrites e) k = none → lastWrite o k = none →
        (settingsNew d o e).get k = lastWrite d k) := by
  refine ⟨?_, ?_, ?_⟩
  · intro ve hve; rw [settingsNew_get, hve]; rfl
  · intro he vo hvo; rw [settingsNew_get, he, hvo]; rfl
  · intro he ho; rw [settingsNew_get, he, ho]; rfl

/-- Witness for C2, mirroring the spec's §8 check: `XI_NETWORK_TCP_CONNECT_COUNT=1`
beats an override-script write of `5`, which itself beats a default-script
write of `10`. -/
theorem c2_layer_precedence_witness :
    (settingsNew [("network.TCP_CONNECT_COUNT", .int 10)]
        [("network.TCP_CONNECT_COUNT", .int 5)]
        [("XI_NETWORK_TCP_CONNECT_COUNT", "1")]).get "network.TCP_CONNECT_COUNT"
      = some (.int 1)
    ∧ (settingsNew [("network.TCP_CONNECT_COUNT", .int 10)]
        [("network.TCP_CONNECT_COUNT", .int 5)] []).get "network.TCP_CONNECT_COUNT"
      = some (.int 5) := by
  constructor
  · exact (c2_layer_precedence _ _ _ "network.TCP_CONNECT_COUNT").1
      (.int 1) (by decide)
  · exact (c2_layer_precedence _ _ [] "network.TCP_CONNECT_COUNT").2.1
      (by decide) (.int 5) (by decide)

/-- C3: under `DenyAllow` ordering an address is permitted unless it matches
some deny range; matching both deny and allow still permits (allow overrides
deny); precisely, the decision is `¬deny ∨ allow`, and an empty deny set
permits every address whatever the allow set. -/
theorem c3_deny_allow_semantics (allow deny : List Ipv4Network) (addr : Nat) :
    (matchesAny deny addr = false → evaluate .denyAllow allow deny addr = true)
    ∧ (matchesAny deny addr = true → matchesAny allow addr = true →
        evaluate .denyAllow allow deny addr = true)
    ∧ (evaluate .denyAllow allow deny addr
        = (!(matchesAny deny addr) || matchesAny allow addr))
    ∧ evaluate .denyAllow allow [] addr = true := by
  refine ⟨?_, ?_, ?_, ?_⟩
  · intro h; simp [evaluate, h]
  · intro hd ha; simp [evaluate, hd, ha]
  · cases hd : matchesAny deny addr <;> simp [evaluate, hd]
  · simp [evaluate, matchesAny]

/-- Witness for C3: the spec's §8 end-to-end case — deny `0.0.0.0/0`, allow
`127.0.0.1/32`; the loopback address matches both and is permitted. -/
theorem c3_deny_allow_semantics_witness :
    evaluate .denyAllow [⟨2130706433, 32⟩] [⟨0, 0⟩] 2130706433 = true
    ∧ evaluate .denyAllow [] [] 134744072 = true := by
  constructor
  · exact (c3_deny_allow_semantics [⟨2130706433, 32⟩] [⟨0, 0⟩] 2130706433).2.1
      (by decide) (by decide)
  · exact (c3_deny_allow_semantics [] [] 134744072).2.2.2

/-- C7: the literal token `all` parses to the IPv4 network `0.0.0.0` with
mask length `0`, and that range contains every 32-bit address. -/
theorem c7_all_token :
    accessIpmask "all" = some ⟨0, 0⟩
    ∧ ∀ a : Nat, a < 2 ^ 32 → containsAddr ⟨0, 0⟩ a = true := by
  constructor
  · decide
  · intro a ha
    simp only [containsAddr]
    rw [Nat.sub_zero, Nat.div_eq_of_lt ha]
    rfl

/-- Witness for C7 at the concrete address `8.8.8.8`. -/
theorem c7_all_token_witness :
    accessIpmask "all" = some ⟨0, 0⟩ ∧ containsAddr ⟨0, 0⟩ 134744072 = true :=
  ⟨c7_all_token.1, c7_all_token.2 134744072 (by decide)⟩

/-- C8: ordering-string parsing maps the three recognized strings to their
orders and every other string to `denyAllow`; it is total. -/
theorem c8_order_parse :
    AccessOrder.fromStr "deny,allow" = .denyAllow
    ∧ AccessOrder.fromStr "allow,deny" = .allowDeny
    ∧ AccessOrder.fromStr "mutual-failure" = .mutualFailure
    ∧ ∀ s : String, s ≠ "deny,allow" → s ≠ "allow,deny" → s ≠ "mutual-failure" →
        AccessOrder.fromStr s = .denyAllow := by
  refine ⟨by decide, by decide, by decide, ?_⟩
  intro s h1 h2 h3
  simp [AccessOrder.fromStr, h1, h2, h3]

/-- Witness for C8 at the unrecognized string `mutual failure`. -/
theorem c8_order_parse_witness :
    AccessOrder.fromStr "mutual failure" = .denyAllow :=
  c8_order_parse.2.2.2 "mutual failure" (by decide) (by decide) (by decide)

/-- C5: access-list parsing never fails the whole call — an input all of
whose tokens fail to parse (the empty input included) yields the empty range
set, and every range in the output comes from a non-empty token that parsed
successfully (empty tokens are skipped and invalid tokens dropped). -/
theorem c5_parse_list_recovers :
    (∀ csv : String,
      (∀ t ∈ (splitOnChar ',' csv.data).map String.mk, accessIpmask t = none) →
      loadAccessList csv = [])
    ∧ loadAccessList "" = []
    ∧ (∀ (csv : String) (net : Ipv4Network), net ∈ loadAccessList csv →
        ∃ t, t ∈ (splitOnChar ',' csv.data).map String.mk ∧ t ≠ ""
          ∧ accessIpmask t = some net) := by
  refine ⟨?_, by decide, ?_⟩
  · intro csv h
    apply List.filterMap_eq_nil_iff.mpr
    intro t ht
    exact h t (List.mem_filter.mp ht).1
  · intro csv net hnet
    obtain ⟨t, ht, hparse⟩ := List.mem_filterMap.mp hnet
    have hf := List.mem_filter.mp ht
    exact ⟨t, hf.1, by simpa using hf.2, hparse⟩

/-- Witness for C5: a list whose every token is invalid or empty parses to
the empty range set. -/
theorem c5_parse_list_recovers_witness :
    loadAccessList "garbage,,256.1.2.3" = [] :=
  c5_parse_list_recovers.1 "garbage,,256.1.2.3" (by decide)

/-- C6: an environment variable `XI_<NAMESPACE>_<REST>` (namespace up to the
first underscore after the prefix) is written as the key
`<namespace lowercased>.<REST>` with `REST` kept as-is, and its value is
coerced by trying int, then float, then bool, then string, the first
successful parse winning. -/
theorem c6_env_overlay_key :
    (∀ (ns rest : List Char) (v : String), '_' ∉ ns →
      envPair (String.mk ("XI".data ++ '_' :: ns ++ '_' :: rest)) v
        = some (String.mk (ns.map Char.toLower ++ '.' :: rest),
                SettingsValue.fromStr v))
    ∧ ∀ s : String,
      (∀ n, parseI64 s.data = some n → SettingsValue.fromStr s = .int n)
      ∧ (parseI64 s.data = none → ∀ f, parseF64 s.data = some f →
          SettingsValue.fromStr s = .float f)
      ∧ (parseI64 s.data = none → parseF64 s.data = none →
          ∀ b, parseBool s.data = some b → SettingsValue.fromStr s = .bool b)
      ∧ (parseI64 s.data = none → parseF64 s.data = none →
          parseBool s.data = none → SettingsValue.fromStr s = .string s) := by
  constructor
  · intro ns rest v hns
    show (match splitOnChar '_' ("XI".data ++ '_' :: (ns ++ '_' :: rest)) with
      | p0 :: p1 :: r =>
        if p0 = "XI".data then
          some (String.mk (p1.map Char.toLower ++ '.' :: joinWithChar '_' r),
                SettingsValue.fromStr v)
        else none
      | _ => none) = _
    have h1 : splitOnChar '_' ("XI".data ++ '_' :: (ns ++ '_' :: rest))
        = "XI".data :: splitOnChar '_' (ns ++ '_' :: rest) :=
      splitOnChar_append '_' "XI".data (ns ++ '_' :: rest) (by decide)
    have h2 : splitOnChar '_' (ns ++ '_' :: rest)
        = ns :: splitOnChar '_' rest :=
      splitOnChar_append '_' ns rest hns
    rw [h1, h2]
    simp [joinWithChar_splitOnChar]
  · intro s
    refine ⟨?_, ?_, ?_, ?_⟩
    · intro n h; simp [SettingsValue.fromStr, h]
    · intro hi f h; simp [SettingsValue.fromStr, hi, h]
    · intro hi hf b h; simp [SettingsValue.fromStr, hi, hf, h]
    · intro hi hf hb; simp [SettingsValue.fromStr, hi, hf, hb]

/-- Witness for C6: `XI_MAIN_FOO_BAR=9999` writes `main.FOO_BAR` with the
int-coerced value, as in the repository's own env-overlay test. -/
theorem c6_env_overlay_key_witness :
    envPair "XI_MAIN_FOO_BAR" "9999" = some ("main.FOO_BAR", .int 9999) := by
  have h := c6_env_overlay_key.1 "MAIN".data "FOO_BAR".data "9999" (by decide)
  rw [show ("XI_MAIN_FOO_BAR" : String)
      = String.mk ("XI".data ++ '_' :: "MAIN".data ++ '_' :: "FOO_BAR".data)
    from by decide]
  rw [h]
  decide

/-- C9: a Lua value outside the four handled shapes (boolean / integer /
number / string) converts to `SettingsValue.unknown` without error, is
inserted into the store under its key by `populate_hashmap`, and `unknown`
lies outside the spec's closed Bool/Int/Float/String/RawBytes value set. -/
theorem c9_unknown_value (v : LuaValue) (hv : isBasicShape v = false) :
    fromLua v = .ok .unknown
    ∧ (∀ ns k : String,
        populateOuter [(ns, .table [(k, v)])] SettingsMap.empty
          = .ok (SettingsMap.empty.insert (ns ++ "." ++ k) .unknown)
        ∧ (SettingsMap.empty.insert (ns ++ "." ++ k) .unknown).get (ns ++ "." ++ k)
          = some .unknown)
    ∧ (∀ b, SettingsValue.unknown ≠ .bool b)
    ∧ (∀ n, SettingsValue.unknown ≠ .int n)
    ∧ (∀ f, SettingsValue.unknown ≠ .float f)
    ∧ (∀ s, SettingsValue.unknown ≠ .string s)
    ∧ (∀ bs, SettingsValue.unknown ≠ .badString bs) := by
  have hfl : fromLua v = .ok .unknown := by
    cases v <;> simp_all [isBasicShape, fromLua]
  refine ⟨hfl, ?_,
    fun b h => SettingsValue.noConfusion h,
    fun n h => SettingsValue.noConfusion h,
    fun f h => SettingsValue.noConfusion h,
    fun s h => SettingsValue.noConfusion h,
    fun bs h => SettingsValue.noConfusion h⟩
  intro ns k
  constructor
  · simp [populateOuter, populateInner, hfl]
  · simp [SettingsMap.get, SettingsMap.insert]

/-- Witness for C9 at a concrete nested table value under `map.CASKET`. -/
theorem c9_unknown_value_witness :
    fromLua (.table [("x", .integer 1)]) = .ok .unknown
    ∧ populateOuter [("map", .table [("CASKET", .table [("x", .integer 1)])])]
        SettingsMap.empty
      = .ok (SettingsMap.empty.insert ("map" ++ "." ++ "CASKET") .unknown) := by
  have h := c9_unknown_value (.table [("x", .integer 1)]) (by rfl)
  exact ⟨h.1, (h.2.1 "map" "CASKET").1⟩

/-! ### Lemmas: a space anywhere in a token defeats every numeric parser -/

theorem all_isDigit_false_of_space {cs : List Char} (h : ' ' ∈ cs) :
    cs.all Char.isDigit = false :=
  List.all_eq_false.mpr ⟨' ', h, by decide⟩

theorem space_parseOctet (cs : List Char) (h : ' ' ∈ cs) :
    parseOctet cs = none := by
  unfold parseOctet
  rw [if_neg]
  rintro ⟨-, h2, -⟩
  rw [all_isDigit_false_of_space h] at h2
  cases h2

theorem space_parseIpv4Addr (cs : List Char) (h : ' ' ∈ cs) :
    parseIpv4Addr cs = none := by
  obtain ⟨part, hp, hsp⟩ := exists_part_of_mem '.' cs ' ' h (by decide)
  have hmem : (none : Option Nat) ∈ (splitOnChar '.' cs).map parseOctet := by
    rw [← space_parseOctet part hsp]
    exact List.mem_map_of_mem parseOctet hp
  unfold parseIpv4Addr
  split
  · next a b c d heq =>
      rw [heq] at hmem
      simp at hmem
  · rfl

theorem space_parseU8 (cs : List Char) (h : ' ' ∈ cs) : parseU8 cs = none := by
  have hds : ' ' ∈ (if cs.head? = some '+' then cs.tail else cs) := by
    by_cases hh : cs.head? = some '+'
    · rw [if_pos hh]
      rcases cs with _ | ⟨c, t⟩
      · simp at h
      · have hc : c = '+' := by simpa using hh
        subst hc
        rcases List.mem_cons.mp h with h1 | h1
        · exact absurd h1 (by decide)
        · simpa using h1
    · rw [if_neg hh]; exact h
  simp only [parseU8]
  rw [if_neg]
  rintro ⟨-, h2, -⟩
  rw [all_isDigit_false_of_space hds] at h2
  cases h2

theorem space_parseMaskLen (cs : List Char) (h : ' ' ∈ cs) :
    parseMaskLen cs = none := by
  simp [parseMaskLen, space_parseU8 cs h, space_parseIpv4Addr cs h]

theorem space_ipv4NetworkFromStr (cs : List Char) (h : ' ' ∈ cs) :
    ipv4NetworkFromStr cs = none := by
  obtain ⟨part, hp, hsp⟩ := exists_part_of_mem '/' cs ' ' h (by decide)
  unfold ipv4NetworkFromStr
  split
  case _ a heq =>
    rw [heq] at hp
    simp at hp
    subst hp
    rw [space_parseIpv4Addr part hsp]
    rfl
  case _ a p heq =>
    rw [heq] at hp
    simp at hp
    rcases hp with hp | hp
    · subst hp
      rw [space_parseIpv4Addr part hsp]
    · subst hp
      rw [space_parseMaskLen part hsp]
      cases parseIpv4Addr a <;> rfl
  case _ => rfl

/-- C10: access-list tokenization never trims whitespace — only tokens that
are exactly the empty string are removed, so a token containing a space
(e.g. from writing a space after the comma) fails CIDR parsing outright and
is silently dropped from the result, as on the concrete input
`127.0.0.1, 10.0.0.0/8` whose second token is lost. -/
theorem c10_no_trim :
    (∀ s : String, ' ' ∈ s.data → accessIpmask s = none)
    ∧ loadAccessList "127.0.0.1, 10.0.0.0/8" = [⟨2130706433, 32⟩] := by
  constructor
  · intro s h
    by_cases hall : s = "all"
    · subst hall
      exact absurd h (by decide)
    · unfold accessIpmask
      rw [if_neg hall]
      exact space_ipv4NetworkFromStr s.data h
  · decide

/-- Witness for C10 at the concrete space-bearing token. -/
theorem c10_no_trim_witness : accessIpmask " 10.0.0.0/8" = none :=
  c10_no_trim.1 " 10.0.0.0/8" (by decide)

/-! ### Lemmas: rate limiter runs inside one window -/

theorem runAttempts_within_window (cfg : RateConfig) (t0 : Nat) :
    ∀ (ts : List Nat) (c : Nat), c + ts.length ≤ cfg.connectCount →
      (∀ t ∈ ts, t - t0 ≤ cfg.connectInterval) →
      runAttempts cfg ⟨c, t0, none⟩ ts
        = (List.replicate ts.length .pass, ⟨c + ts.length, t0, none⟩) := by
  intro ts
  induction ts with
  | nil => intro c _ _; simp [runAttempts]
  | cons t ts ih =>
    intro c hc hw
    have hnr : ¬ (t - t0 > cfg.connectInterval) :=
      Nat.not_lt.mpr (hw t (List.mem_cons_self t ts))
    have hnc : ¬ (c + 1 > cfg.connectCount) := by
      simp only [List.length_cons] at hc
      omega
    have hstep : recordAttempt cfg ⟨c, t0, none⟩ t = (.pass, ⟨c + 1, t0, none⟩) := by
      simp [recordAttempt, recordAttempt.stepWindow, hnr, hnc]
    have hrest := ih (c + 1)
      (by simp only [List.length_cons] at hc; omega)
      (fun u hu => hw u (List.mem_cons_of_mem t hu))
    simp only [runAttempts, hstep, hrest, List.length_cons, List.replicate_succ]
    have hl : c + 1 + ts.length = c + (ts.length + 1) := by omega
    rw [hl]

/-- C4: with threshold `N = connect_count` and window `W = connect_interval`,
a source IP starting from fresh state passes exactly `N` attempts inside one
window, and the `(N+1)`th attempt in the same window is rejected as
rate-limited with `retry_after = connect_lockout` and a lockout expiring
`connect_lockout` after that attempt. -/
theorem c4_rate_threshold (cfg : RateConfig) (t0 tNext : Nat) (ts : List Nat)
    (hlen : ts.length = cfg.connectCount)
    (hin : ∀ t ∈ ts, t0 ≤ t ∧ t - t0 ≤ cfg.connectInterval)
    (hnext0 : t0 ≤ tNext) (hnext : tNext - t0 ≤ cfg.connectInterval) :
    (runAttempts cfg (freshState t0) ts).1
      = List.replicate cfg.connectCount .pass
    ∧ recordAttempt cfg (runAttempts cfg (freshState t0) ts).2 tNext
      = (.rateLimited cfg.connectLockout,
         ⟨cfg.connectCount + 1, t0, some (tNext + cfg.connectLockout)⟩) := by
  have hrun : runAttempts cfg (freshState t0) ts
      = (List.replicate ts.length .pass, ⟨0 + ts.length, t0, none⟩) :=
    runAttempts_within_window cfg t0 ts 0 (by omega) (fun t ht => (hin t ht).2)
  constructor
  · rw [hrun, hlen]
  · rw [hrun]
    have hnr : ¬ (tNext - t0 > cfg.connectInterval) := Nat.not_lt.mpr hnext
    have hcnt : 0 + ts.length + 1 > cfg.connectCount := by omega
    simp [recordAttempt, recordAttempt.stepWindow, hnr, hcnt, hlen]

/-- Witness for C4, the spec's §8 end-to-end numbers: `N = 3`, `W = 1000ms`,
lockout `5000ms`; attempts at `t = 0, 100, 200` all pass and the fourth at
`t = 300` is rejected with a lockout until `t = 5300`. -/
theorem c4_rate_threshold_witness :
    (runAttempts ⟨3, 1000, 5000⟩ (freshState 0) [0, 100, 200]).1
      = List.replicate 3 .pass
    ∧ recordAttempt ⟨3, 1000, 5000⟩
        (runAttempts ⟨3, 1000, 5000⟩ (freshState 0) [0, 100, 200]).2 300
      = (.rateLimited 5000, ⟨4, 0, some 5300⟩) :=
  c4_rate_threshold ⟨3, 1000, 5000⟩ 0 300 [0, 100, 200]
    (by decide) (by decide) (by decide) (by decide)

end VSB
